import Mathlib

/-!
# Verification development for GWebGPUEngine

Shallow embedding of
* `HierarchyComponent` (src/packages/core/src/components/scenegraph/HierarchyComponent.ts),
* the Fruchterman example driver's `buildTextureData`
  (src/packages/core/src/components/renderer/IRendererService.ts, second document),
* the compute Scheduler and code generator, which are declared/consumed by the files under
  src/ but whose implementation is not part of the provided sources; those parts are
  modelled from the specification (each such definition is marked `Modelled from the spec:`).

Numbers appearing in JavaScript arrays are modelled as `Rat` (the example only ever stores
integers and finite decimal fractions; `Float32Array` conversion is modelled as the identity,
i.e. rounding of large values is out of scope). JS `undefined` is modelled with `Option`.
-/

namespace GWebGPU

/-! ## HierarchyComponent -/

/-- `HierarchyComponent`'s constructor body `this.parentID = data.parentID || -1`.
`data.parentID : Entity | undefined` is modelled as `Option Int`; the JS `||` operator
returns its right operand when the left operand is falsy, and for numbers exactly `0`
is falsy (`undefined` is falsy as well). -/
def hierarchyParentID (dataParentID : Option Int) : Int :=
  match dataParentID with
  | some n => if n = 0 then -1 else n
  | none => -1

/-! ## buildTextureData (Fruchterman example driver) -/

/-- One element of the `nodes` argument of `buildTextureData`: an id plus 2D coordinates. -/
structure GraphNode where
  id : Nat
  x : Rat
  y : Rat

/-- One element of the `edges` argument of `buildTextureData`. -/
structure GraphEdge where
  source : Nat
  target : Nat

/-- The `mapIdPos` dictionary built by the first loop of `buildTextureData`:
`mapIdPos[n.id] = i` for each node in order, a later node with the same id overwriting
an earlier one, so a lookup returns the index of the LAST node carrying that id
(`none` models a JS lookup of an id that was never inserted, i.e. `undefined`). -/
def mapIdPos (nodes : List GraphNode) (id : Nat) : Option Nat :=
  (nodes.enum.filterMap (fun p => if p.2.id = id then some p.1 else none)).getLast?

/-- The `dataArray` contents after the first loop of `buildTextureData`:
`[n.x, n.y, 0, 0]` pushed for every node in order. -/
def initialDataArray (nodes : List GraphNode) : List Rat :=
  nodes.flatMap (fun n => [n.x, n.y, 0, 0])

/-- `nodeDict[j].push(v)`: JS array push at index `j` of the dictionary. -/
def pushAt (d : List (List Nat)) (j : Nat) (v : Nat) : List (List Nat) :=
  d.set j (d.getD j [] ++ [v])

/-- Body of the second loop of `buildTextureData` for one edge:
`nodeDict[mapIdPos[e.source]].push(mapIdPos[e.target])` followed by
`nodeDict[mapIdPos[e.target]].push(mapIdPos[e.source])`. A lookup of an id absent from
`mapIdPos` yields JS `undefined` and the subsequent `.push` throws; this is modelled by
`none`. -/
def edgeStep (nodes : List GraphNode) (acc : Option (List (List Nat))) (e : GraphEdge) :
    Option (List (List Nat)) :=
  match acc with
  | none => none
  | some d =>
    match mapIdPos nodes e.source, mapIdPos nodes e.target with
    | some si, some ti => some (pushAt (pushAt d si ti) ti si)
    | _, _ => none

/-- The `nodeDict` adjacency dictionary after the second loop of `buildTextureData`
(starting from one empty list per node, pushed by the first loop). -/
def buildNodeDict (nodes : List GraphNode) (edges : List GraphEdge) :
    Option (List (List Nat)) :=
  edges.foldl (edgeStep nodes) (some (List.replicate nodes.length []))

/-- The pairs pushed onto the module-level `lineIndexBufferData` by the second loop
(`lineIndexBufferData.push(mapIdPos[e.source], mapIdPos[e.target])`). Not used by the
texture data itself; kept for completeness of the embedding. -/
def lineIndexPairs (nodes : List GraphNode) (edges : List GraphEdge) : Option (List Nat) :=
  edges.foldl
    (fun acc e =>
      match acc with
      | none => none
      | some l =>
        match mapIdPos nodes e.source, mapIdPos nodes e.target with
        | some si, some ti => some (l ++ [si, ti])
        | _, _ => none)
    (some [])

/-- Body of the third loop of `buildTextureData` for node index `i`:
records `offset = dataArray.length`, writes `dataArray[i*4+2] = offset` and
`dataArray[i*4+3] = dests.length`, updates `maxEdgePerVetex`, then pushes every
destination of `nodeDict[i]` onto `dataArray`. -/
def attachStep (dict : List (List Nat)) (acc : List Rat × Nat) (i : Nat) : List Rat × Nat :=
  let arr := acc.1
  let maxE := acc.2
  let offset := arr.length
  let dests := dict.getD i []
  let arr1 := (arr.set (i * 4 + 2) (offset : Rat)).set (i * 4 + 3) (dests.length : Rat)
  (arr1 ++ dests.map (fun d : Nat => (d : Rat)), max maxE dests.length)

/-- The trailing `while (dataArray.length % 4 !== 0) dataArray.push(0)` loop:
appends zeros until the length is a multiple of 4 (closed form of the while loop). -/
def padTo4 (arr : List Rat) : List Rat :=
  arr ++ List.replicate ((4 - arr.length % 4) % 4) 0

/-- `buildTextureData(nodes, edges)`: returns the final `dataArray` (the `Float32Array`
conversion modelled as identity) together with the value left in the module-level
`maxEdgePerVetex` counter (reset to 0 before the third loop). `none` models the JS
exception thrown when an edge endpoint id is absent from `mapIdPos`. -/
def buildTextureData (nodes : List GraphNode) (edges : List GraphEdge) :
    Option (List Rat × Nat) :=
  match buildNodeDict nodes edges with
  | none => none
  | some dict =>
    let p := (List.range nodes.length).foldl (attachStep dict) (initialDataArray nodes, 0)
    some (padTo4 p.1, p.2)

/-! ### Specification-side characterizations for buildTextureData -/

/-- The adjacency list accumulated for node index `i` across all edges, in the push
order of the second loop: for each edge, first the source's list receives the target
index, then the target's list receives the source index. -/
def adjList (nodes : List GraphNode) (edges : List GraphEdge) (i : Nat) : List Nat :=
  edges.foldl
    (fun l e =>
      match mapIdPos nodes e.source, mapIdPos nodes e.target with
      | some si, some ti =>
        (if si = i then l ++ [ti] else l) ++ (if ti = i then [si] else [])
      | _, _ => l)
    []

/-- Number of edge endpoints at node index `i`: each edge contributes once for each of
its endpoints mapping to `i` (a self-loop contributes twice). -/
def incidenceCount (nodes : List GraphNode) (edges : List GraphEdge) (i : Nat) : Nat :=
  (edges.map (fun e =>
    (if mapIdPos nodes e.source = some i then 1 else 0) +
      (if mapIdPos nodes e.target = some i then 1 else 0))).sum

/-- Offset (index into `dataArray`) at which node `i`'s adjacency list begins:
the 4-per-node header, plus the adjacency lists of all preceding nodes. -/
def adjOffset (nodes : List GraphNode) (edges : List GraphEdge) (i : Nat) : Nat :=
  4 * nodes.length + ((List.range i).map (incidenceCount nodes edges)).sum

/-- Maximum incidence count over all node indices (0 when there are no nodes). -/
def maxIncidence (nodes : List GraphNode) (edges : List GraphEdge) : Nat :=
  ((List.range nodes.length).map (incidenceCount nodes edges)).foldl max 0

/-- Total number of adjacency entries over all nodes. -/
def totalIncidence (nodes : List GraphNode) (edges : List GraphEdge) : Nat :=
  ((List.range nodes.length).map (incidenceCount nodes edges)).sum

/-- Concatenation of all adjacency lists in node order, as stored into `dataArray`. -/
def allAdjSegments (nodes : List GraphNode) (edges : List GraphEdge) : List Rat :=
  (List.range nodes.length).flatMap (fun j => (adjList nodes edges j).map (fun d : Nat => (d : Rat)))

/-- Per-edge contribution to node `i`'s adjacency list (both pushes of the second loop). -/
def adjContrib (nodes : List GraphNode) (i : Nat) (e : GraphEdge) : List Nat :=
  match mapIdPos nodes e.source, mapIdPos nodes e.target with
  | some si, some ti => (if si = i then [ti] else []) ++ (if ti = i then [si] else [])
  | _, _ => []

end GWebGPU

namespace GWebGPU

/-! ### Helper lemmas about list operations -/

theorem getD_set_self {α : Type} (l : List α) (j : Nat) (v d : α) (h : j < l.length) :
    (l.set j v).getD j d = v := by
  rw [List.getD_eq_getElem _ _ (by simpa using h)]
  simp

theorem getD_set_ne {α : Type} (l : List α) (i j : Nat) (v d : α) (h : j ≠ i) :
    (l.set j v).getD i d = l.getD i d := by
  rw [List.getD_eq_getD_get?, List.getD_eq_getD_get?]
  simp [List.get?_eq_getElem?, List.getElem?_set_ne h]

theorem length_flatMap_eq_sum {γ β : Type} (l : List γ) (f : γ → List β) :
    (l.flatMap f).length = (l.map (fun x => (f x).length)).sum := by
  induction l with
  | nil => rfl
  | cons x xs ih => simp [List.flatMap_cons, ih]

/-! ### Basic facts about the buildTextureData embedding -/

theorem mapIdPos_lt {nodes : List GraphNode} {id i : Nat} (h : mapIdPos nodes id = some i) :
    i < nodes.length := by
  unfold mapIdPos at h
  have hmem := List.mem_of_getLast?_eq_some h
  rw [List.mem_filterMap] at hmem
  obtain ⟨p, hp, hpi⟩ := hmem
  have hlt : p.1 < nodes.length := by
    have := List.mem_enum_iff_getElem?.mp hp
    exact (List.getElem?_eq_some.mp this).1
  by_cases hid : p.2.id = id
  · rw [if_pos hid] at hpi
    injection hpi with hpi
    exact hpi ▸ hlt
  · simp [hid] at hpi

theorem pushAt_length (d : List (List Nat)) (j v : Nat) : (pushAt d j v).length = d.length := by
  simp [pushAt]

theorem pushAt_getD_self (d : List (List Nat)) (j v : Nat) (h : j < d.length) :
    (pushAt d j v).getD j [] = d.getD j [] ++ [v] :=
  getD_set_self _ _ _ _ h

theorem pushAt_getD_ne (d : List (List Nat)) (i j v : Nat) (h : j ≠ i) :
    (pushAt d j v).getD i [] = d.getD i [] :=
  getD_set_ne _ _ _ _ _ h

theorem adjList_foldl_general (nodes : List GraphNode) (edges : List GraphEdge) (i : Nat) :
    ∀ l : List Nat,
      edges.foldl
        (fun l e =>
          match mapIdPos nodes e.source, mapIdPos nodes e.target with
          | some si, some ti =>
            (if si = i then l ++ [ti] else l) ++ (if ti = i then [si] else [])
          | _, _ => l)
        l = l ++ edges.flatMap (adjContrib nodes i) := by
  induction edges with
  | nil => intro l; simp
  | cons e es ih =>
    intro l
    have hstep :
        (match mapIdPos nodes e.source, mapIdPos nodes e.target with
          | some si, some ti =>
            (if si = i then l ++ [ti] else l) ++ (if ti = i then [si] else [])
          | _, _ => l) = l ++ adjContrib nodes i e := by
      unfold adjContrib
      cases mapIdPos nodes e.source <;> cases mapIdPos nodes e.target <;> simp
      split <;> split <;> simp
    simp only [List.foldl_cons]
    rw [hstep, ih, List.flatMap_cons, List.append_assoc]

theorem adjList_eq_flatMap (nodes : List GraphNode) (edges : List GraphEdge) (i : Nat) :
    adjList nodes edges i = edges.flatMap (adjContrib nodes i) := by
  unfold adjList
  rw [adjList_foldl_general]
  simp

theorem foldl_edgeStep_none (nodes : List GraphNode) (edges : List GraphEdge) :
    edges.foldl (edgeStep nodes) none = none := by
  induction edges with
  | nil => rfl
  | cons e es ih => simpa [edgeStep] using ih

theorem foldl_edgeStep_spec (nodes : List GraphNode) :
    ∀ (edges : List GraphEdge) (d0 d : List (List Nat)),
      d0.length = nodes.length →
      edges.foldl (edgeStep nodes) (some d0) = some d →
      d.length = nodes.length
        ∧ (∀ i, d.getD i [] = d0.getD i [] ++ edges.flatMap (adjContrib nodes i))
        ∧ ∀ e ∈ edges, (mapIdPos nodes e.source).isSome ∧ (mapIdPos nodes e.target).isSome := by
  intro edges
  induction edges with
  | nil =>
    intro d0 d hlen h
    simp only [List.foldl_nil, Option.some.injEq] at h
    subst h
    exact ⟨hlen, fun i => by simp, by simp⟩
  | cons e es ih =>
    intro d0 d hlen h
    rw [List.foldl_cons] at h
    cases h1 : mapIdPos nodes e.source with
    | none =>
      rw [show edgeStep nodes (some d0) e = none by simp [edgeStep, h1]] at h
      rw [foldl_edgeStep_none] at h
      exact absurd h (by simp)
    | some si =>
      cases h2 : mapIdPos nodes e.target with
      | none =>
        rw [show edgeStep nodes (some d0) e = none by simp [edgeStep, h1, h2]] at h
        rw [foldl_edgeStep_none] at h
        exact absurd h (by simp)
      | some ti =>
        have hstep : edgeStep nodes (some d0) e = some (pushAt (pushAt d0 si ti) ti si) := by
          simp [edgeStep, h1, h2]
        rw [hstep] at h
        have hlen1 : (pushAt (pushAt d0 si ti) ti si).length = nodes.length := by
          rw [pushAt_length, pushAt_length, hlen]
        obtain ⟨hl, hg, hr⟩ := ih (pushAt (pushAt d0 si ti) ti si) d hlen1 h
        have hsi : si < d0.length := hlen ▸ mapIdPos_lt h1
        have hti : ti < d0.length := hlen ▸ mapIdPos_lt h2
        refine ⟨hl, fun i => ?_, fun e' he' => ?_⟩
        · rw [hg i, List.flatMap_cons, ← List.append_assoc]
          congr 1
          simp only [adjContrib, h1, h2]
          by_cases hsii : si = i
          · subst hsii
            by_cases htii : ti = si
            · subst htii
              rw [pushAt_getD_self _ _ _ (by rw [pushAt_length]; exact hsi),
                pushAt_getD_self _ _ _ hsi]
              simp
            · rw [pushAt_getD_ne _ _ _ _ htii, pushAt_getD_self _ _ _ hsi]
              simp [htii]
          · by_cases htii : ti = i
            · subst htii
              rw [pushAt_getD_self _ _ _ (by rw [pushAt_length]; exact hti),
                pushAt_getD_ne _ _ _ _ hsii]
              simp [hsii]
            · rw [pushAt_getD_ne _ _ _ _ htii, pushAt_getD_ne _ _ _ _ hsii]
              simp [hsii, htii]
        · rcases List.mem_cons.mp he' with he' | he'
          · subst he'
            exact ⟨by simp [h1], by simp [h2]⟩
          · exact hr e' he'

theorem buildNodeDict_spec (nodes : List GraphNode) (edges : List GraphEdge)
    (dict : List (List Nat)) (h : buildNodeDict nodes edges = some dict) :
    dict.length = nodes.length
      ∧ (∀ i, dict.getD i [] = adjList nodes edges i)
      ∧ ∀ e ∈ edges, (mapIdPos nodes e.source).isSome ∧ (mapIdPos nodes e.target).isSome := by
  obtain ⟨hl, hg, hr⟩ :=
    foldl_edgeStep_spec nodes edges (List.replicate nodes.length []) dict (by simp) h
  refine ⟨hl, fun i => ?_, hr⟩
  rw [hg i, adjList_eq_flatMap]
  have : (List.replicate nodes.length ([] : List Nat)).getD i [] = [] := by
    rcases Nat.lt_or_ge i nodes.length with hlt | hge
    · rw [List.getD_eq_getElem _ _ (by simpa using hlt)]
      simp
    · rw [List.getD_eq_default _ _ (by simpa using hge)]
  rw [this]
  simp

theorem adjContrib_length (nodes : List GraphNode) (i : Nat) (e : GraphEdge)
    (hs : (mapIdPos nodes e.source).isSome) (ht : (mapIdPos nodes e.target).isSome) :
    (adjContrib nodes i e).length =
      (if mapIdPos nodes e.source = some i then 1 else 0) +
        (if mapIdPos nodes e.target = some i then 1 else 0) := by
  obtain ⟨si, h1⟩ := Option.isSome_iff_exists.mp hs
  obtain ⟨ti, h2⟩ := Option.isSome_iff_exists.mp ht
  simp only [adjContrib, h1, h2, Option.some.injEq]
  by_cases hsi : si = i <;> by_cases hti : ti = i <;> simp [hsi, hti]

theorem adjList_length (nodes : List GraphNode) (edges : List GraphEdge) (i : Nat)
    (hres : ∀ e ∈ edges, (mapIdPos nodes e.source).isSome ∧ (mapIdPos nodes e.target).isSome) :
    (adjList nodes edges i).length = incidenceCount nodes edges i := by
  rw [adjList_eq_flatMap]
  unfold incidenceCount
  induction edges with
  | nil => simp
  | cons e es ih =>
    simp only [List.flatMap_cons, List.length_append, List.map_cons, List.sum_cons]
    rw [adjContrib_length nodes i e (hres e (by simp)).1 (hres e (by simp)).2,
      ih (fun e' he' => hres e' (List.mem_cons_of_mem _ he'))]

theorem initialDataArray_length (nodes : List GraphNode) :
    (initialDataArray nodes).length = 4 * nodes.length := by
  induction nodes with
  | nil => rfl
  | cons n ns ih =>
    simp only [initialDataArray, List.flatMap_cons, List.length_append] at *
    rw [ih]
    simp
    ring

theorem initialDataArray_getD_two (nodes : List GraphNode) (i : Nat) (h : i < nodes.length) :
    (initialDataArray nodes).getD (i * 4 + 2) 0 = 0 := by
  induction nodes generalizing i with
  | nil => simp at h
  | cons n ns ih =>
    simp only [initialDataArray, List.flatMap_cons] at *
    cases i with
    | zero => rfl
    | succ i =>
      rw [List.getD_append_right _ _ _ _ (by simp; omega)]
      have harith : (i + 1) * 4 + 2 - ([n.x, n.y, 0, 0] : List Rat).length = i * 4 + 2 := by
        simp; omega
      rw [harith]
      exact ih i (by simpa using h)

theorem initialDataArray_getD_three (nodes : List GraphNode) (i : Nat) (h : i < nodes.length) :
    (initialDataArray nodes).getD (i * 4 + 3) 0 = 0 := by
  induction nodes generalizing i with
  | nil => simp at h
  | cons n ns ih =>
    simp only [initialDataArray, List.flatMap_cons] at *
    cases i with
    | zero => rfl
    | succ i =>
      rw [List.getD_append_right _ _ _ _ (by simp; omega)]
      have harith : (i + 1) * 4 + 3 - ([n.x, n.y, 0, 0] : List Rat).length = i * 4 + 3 := by
        simp; omega
      rw [harith]
      exact ih i (by simpa using h)

theorem attachFold_spec (nodes : List GraphNode) (edges : List GraphEdge)
    (dict : List (List Nat))
    (hget : ∀ i, dict.getD i [] = adjList nodes edges i)
    (hres : ∀ e ∈ edges, (mapIdPos nodes e.source).isSome ∧ (mapIdPos nodes e.target).isSome) :
    ∀ k, k ≤ nodes.length →
      ((List.range k).foldl (attachStep dict) (initialDataArray nodes, 0)).1.length
          = 4 * nodes.length + ((List.range k).map (incidenceCount nodes edges)).sum
        ∧ (∀ i, i < nodes.length →
            ((List.range k).foldl (attachStep dict)
                (initialDataArray nodes, 0)).1.getD (i * 4 + 2) 0
              = if i < k then (adjOffset nodes edges i : Rat) else 0)
        ∧ (∀ i, i < nodes.length →
            ((List.range k).foldl (attachStep dict)
                (initialDataArray nodes, 0)).1.getD (i * 4 + 3) 0
              = if i < k then (incidenceCount nodes edges i : Rat) else 0)
        ∧ ((List.range k).foldl (attachStep dict)
              (initialDataArray nodes, 0)).1.drop (4 * nodes.length)
            = (List.range k).flatMap (fun j => (adjList nodes edges j).map (fun d : Nat => (d : Rat)))
        ∧ ((List.range k).foldl (attachStep dict) (initialDataArray nodes, 0)).2
            = ((List.range k).map (incidenceCount nodes edges)).foldl max 0 := by
  intro k
  induction k with
  | zero =>
    intro _
    refine ⟨by simp [initialDataArray_length], ?_, ?_, ?_, rfl⟩
    · intro i hi
      simpa using initialDataArray_getD_two nodes i hi
    · intro i hi
      simpa using initialDataArray_getD_three nodes i hi
    · simp only [List.range_zero, List.foldl_nil, List.flatMap_nil]
      rw [← initialDataArray_length nodes, List.drop_length]
  | succ k ih =>
    intro hk1
    have hkn : k < nodes.length := hk1
    obtain ⟨ihlen, ih2, ih3, ihdrop, ihmax⟩ := ih (Nat.le_of_lt hkn)
    simp only [List.range_succ, List.foldl_append, List.foldl_cons, List.foldl_nil,
      List.map_append, List.map_cons, List.map_nil, List.sum_append, List.sum_cons,
      List.sum_nil, List.flatMap_append, List.flatMap_cons, List.flatMap_nil] at *
    set q := (List.range k).foldl (attachStep dict) (initialDataArray nodes, 0) with hq
    have hdest : dict.getD k [] = adjList nodes edges k := hget k
    have hdlen : (dict.getD k []).length = incidenceCount nodes edges k := by
      rw [hdest]
      exact adjList_length _ _ _ hres
    have h42 : k * 4 + 2 < q.1.length := by rw [ihlen]; omega
    have h43 : k * 4 + 3 < q.1.length := by rw [ihlen]; omega
    simp only [attachStep]
    refine ⟨?_, ?_, ?_, ?_, ?_⟩
    · simp only [List.length_append, List.length_set, List.length_map]
      rw [hdlen, ihlen]
      omega
    · intro i hi
      have hi2 : i * 4 + 2 <
          ((q.1.set (k * 4 + 2) ((q.1.length : Rat))).set (k * 4 + 3)
            (((dict.getD k []).length : Rat))).length := by
        simp only [List.length_set]
        rw [ihlen]
        omega
      rw [List.getD_append _ _ _ _ hi2]
      rw [getD_set_ne _ _ _ _ _ (show k * 4 + 3 ≠ i * 4 + 2 by omega)]
      by_cases hik : i = k
      · subst hik
        rw [getD_set_self _ _ _ _ h42, if_pos (Nat.lt_succ_self i), ihlen]
        unfold adjOffset
        push_cast
        ring
      · rw [getD_set_ne _ _ _ _ _ (show k * 4 + 2 ≠ i * 4 + 2 by omega), ih2 i hi]
        by_cases hik2 : i < k
        · rw [if_pos hik2, if_pos (by omega)]
        · rw [if_neg hik2, if_neg (by omega)]
    · intro i hi
      have hi3 : i * 4 + 3 <
          ((q.1.set (k * 4 + 2) ((q.1.length : Rat))).set (k * 4 + 3)
            (((dict.getD k []).length : Rat))).length := by
        simp only [List.length_set]
        rw [ihlen]
        omega
      rw [List.getD_append _ _ _ _ hi3]
      by_cases hik : i = k
      · subst hik
        rw [getD_set_self _ _ _ _ (by simpa using h43), if_pos (Nat.lt_succ_self i), hdlen]
      · rw [getD_set_ne _ _ _ _ _ (show k * 4 + 3 ≠ i * 4 + 3 by omega)]
        rw [getD_set_ne _ _ _ _ _ (show k * 4 + 2 ≠ i * 4 + 3 by omega), ih3 i hi]
        by_cases hik2 : i < k
        · rw [if_pos hik2, if_pos (by omega)]
        · rw [if_neg hik2, if_neg (by omega)]
    · rw [List.drop_append_of_le_length (by simp only [List.length_set]; omega)]
      rw [List.drop_set, if_pos (by omega : k * 4 + 3 < 4 * nodes.length)]
      rw [List.drop_set, if_pos (by omega : k * 4 + 2 < 4 * nodes.length)]
      rw [ihdrop, hdest]
      simp
    · rw [hdlen, ihmax]

theorem buildTextureData_length_mod_four (nodes : List GraphNode) (edges : List GraphEdge)
    (arr : List Rat) (maxE : Nat) (h : buildTextureData nodes edges = some (arr, maxE)) :
    arr.length % 4 = 0 := by
  unfold buildTextureData at h
  cases hd : buildNodeDict nodes edges with
  | none => rw [hd] at h; exact absurd h (by simp)
  | some dict =>
    rw [hd] at h
    simp only [Option.some.injEq, Prod.mk.injEq] at h
    obtain ⟨h1, _⟩ := h
    subst h1
    unfold padTo4
    simp only [List.length_append, List.length_replicate]
    omega

/-- C9 witness: a concrete single-node input. -/
theorem buildTextureData_length_mod_four_witness :
    ([(1 : Rat), 2, 4, 0] : List Rat).length % 4 = 0 :=
  buildTextureData_length_mod_four [⟨0, 1, 2⟩] [] [(1 : Rat), 2, 4, 0] 0 (by decide)

/-- C10: in the array returned by `buildTextureData`, element `4i+2` holds the offset at
which node `i`'s adjacency list begins (header of 4 entries per node, then the adjacency
lists of nodes `0..i-1`), element `4i+3` holds the number of edge endpoints at node `i`
(each edge counted once per endpoint), the adjacency lists indeed occupy the region after
the header in node order, and the returned `maxEdgePerVetex` equals the maximum such
incidence count over all nodes. -/
theorem buildTextureData_layout (nodes : List GraphNode) (edges : List GraphEdge)
    (arr : List Rat) (maxE : Nat) (h : buildTextureData nodes edges = some (arr, maxE)) :
    (∀ i, i < nodes.length →
        arr.getD (i * 4 + 2) 0 = (adjOffset nodes edges i : Rat)
          ∧ arr.getD (i * 4 + 3) 0 = (incidenceCount nodes edges i : Rat))
      ∧ maxE = maxIncidence nodes edges
      ∧ (arr.drop (4 * nodes.length)).take (totalIncidence nodes edges)
          = allAdjSegments nodes edges := by
  unfold buildTextureData at h
  cases hd : buildNodeDict nodes edges with
  | none => rw [hd] at h; exact absurd h (by simp)
  | some dict =>
    rw [hd] at h
    simp only [Option.some.injEq, Prod.mk.injEq] at h
    obtain ⟨harr, hmaxE⟩ := h
    obtain ⟨hdl, hg, hres⟩ := buildNodeDict_spec nodes edges dict hd
    obtain ⟨hlen, h2, h3, hdrop, hmax⟩ := attachFold_spec nodes edges dict hg hres
      nodes.length le_rfl
    subst harr hmaxE
    refine ⟨fun i hi => ?_, ?_, ?_⟩
    · have hi2 : i * 4 + 2 <
          ((List.range nodes.length).foldl (attachStep dict)
            (initialDataArray nodes, 0)).1.length := by rw [hlen]; omega
      have hi3 : i * 4 + 3 <
          ((List.range nodes.length).foldl (attachStep dict)
            (initialDataArray nodes, 0)).1.length := by rw [hlen]; omega
      unfold padTo4
      rw [List.getD_append _ _ _ _ hi2, List.getD_append _ _ _ _ hi3]
      exact ⟨by rw [h2 i hi, if_pos hi], by rw [h3 i hi, if_pos hi]⟩
    · rw [hmax]
      rfl
    · unfold padTo4
      rw [List.drop_append_of_le_length (by rw [hlen]; omega), hdrop]
      have hseg : (allAdjSegments nodes edges).length = totalIncidence nodes edges := by
        unfold allAdjSegments totalIncidence
        rw [length_flatMap_eq_sum]
        congr 1
        refine List.map_congr_left fun j hj => ?_
        rw [List.length_map]
        exact adjList_length nodes edges j hres
      rw [show (List.range nodes.length).flatMap
            (fun j => (adjList nodes edges j).map (fun d : Nat => (d : Rat)))
          = allAdjSegments nodes edges from rfl]
      exact List.take_left' hseg

/-- C10 witness: two nodes joined by one edge; node 0's adjacency list begins at offset 8
and node 1's at offset 9, each node has one incident edge endpoint, and
`maxEdgePerVetex = 1`. -/
theorem buildTextureData_layout_witness :
    (1 : Nat) = maxIncidence [⟨7, 1, 2⟩, ⟨9, 3, 4⟩] [⟨7, 9⟩] :=
  (buildTextureData_layout [⟨7, 1, 2⟩, ⟨9, 3, 4⟩] [⟨7, 9⟩]
    [1, 2, 8, 1, 3, 4, 9, 1, 1, 0, 0, 0] 1 (by decide)).2.1

/-- C8: `HierarchyComponent`'s constructor sets `parentID` to the supplied value when it
is truthy and to the sentinel `-1` otherwise; in particular a supplied `parentID` of `0`
(a valid entity id) is replaced by `-1`, exactly as if it had been omitted. -/
theorem hierarchyParentID_truthiness (n : Int) :
    hierarchyParentID (some n) = (if n = 0 then -1 else n)
      ∧ hierarchyParentID (some 0) = -1
      ∧ hierarchyParentID none = -1 :=
  ⟨rfl, rfl, rfl⟩

end GWebGPU

namespace GWebGPU

/-! ## Compute Scheduler (modelled from the spec)

The Scheduler implementation is not among the provided source files — `src/` only holds
its service interface (`createComputePipeline` / `setBinding` / `onCompleted` usage in
IRendererService.ts) — so the following definitions are modelled from the specification,
§4.4, §4.5 and §5. -/

/-- Modelled from the spec: which of the two physical buffers of a double-buffered
`InOut` binding is currently active (`activeBufferSet : {Front, Back}`). -/
inductive BufSet
  | front
  | back
deriving DecidableEq, Repr

/-- The other physical buffer. -/
def BufSet.other : BufSet → BufSet
  | .front => .back
  | .back => .front

/-- Modelled from the spec: the front/back buffer pair of one `InOut` binding plus the
active flag, mutated exclusively by the Scheduler's dispatch loop. -/
structure DoubleBuffer (α : Type) where
  front : α
  back : α
  active : BufSet
deriving DecidableEq, Repr

/-- The value stored in the currently-active buffer. -/
def DoubleBuffer.activeVal {α : Type} (s : DoubleBuffer α) : α :=
  match s.active with
  | .front => s.front
  | .back => s.back

/-- The physical buffer a dispatch reads from: the currently-active one. -/
def DoubleBuffer.readSlot {α : Type} (s : DoubleBuffer α) : BufSet := s.active

/-- The physical buffer a dispatch writes to: the currently-inactive one. -/
def DoubleBuffer.writeSlot {α : Type} (s : DoubleBuffer α) : BufSet := s.active.other

/-- Store a value into the currently-inactive buffer. -/
def DoubleBuffer.writeInactive {α : Type} (s : DoubleBuffer α) (v : α) : DoubleBuffer α :=
  match s.active with
  | .front => { s with back := v }
  | .back => { s with front := v }

/-- Swap active and inactive buffers. -/
def DoubleBuffer.swap {α : Type} (s : DoubleBuffer α) : DoubleBuffer α :=
  { s with active := s.active.other }

/-- Modelled from the spec: one iteration of the dispatch loop for an `InOut` binding —
the dispatch reads the currently-active buffer, writes `kernel` of it into the
currently-inactive buffer, then the Scheduler swaps active/inactive (ping-pong). -/
def dispatchIter {α : Type} (kernel : α → α) (s : DoubleBuffer α) : DoubleBuffer α :=
  (s.writeInactive (kernel s.activeVal)).swap

end GWebGPU

namespace GWebGPU

/-- Modelled from the spec: binding directions `{In, Out, InOut}`. -/
inductive Direction
  | In
  | Out
  | InOut
deriving DecidableEq, Repr

/-- Modelled from the spec: a named kernel parameter — the direction metadata the
Scheduler's binding resolution consumes. -/
structure Binding where
  name : String
  direction : Direction
deriving DecidableEq, Repr

/-- Modelled from the spec's error taxonomy: the errors the Scheduler can surface. -/
inductive SchedError
  | bindingError (name : String)
  | backendError (msg : String)
deriving DecidableEq, Repr

/-- Modelled from the spec: terminal states of one pipeline run. -/
inductive Outcome
  | completed
  | failed (e : SchedError)
  | cancelled
deriving DecidableEq, Repr

/-- Observable calls the Scheduler makes to its collaborators: dispatches issued to the
backend, and invocations of the completion handoff with the final buffer contents. -/
inductive SchedEvent (α : Type)
  | dispatchCall (iteration : Nat)
  | callbackCall (finalData : α)
deriving DecidableEq, Repr

/-- The observable result of one pipeline run: the event trace plus the terminal state. -/
structure RunResult (α : Type) where
  events : List (SchedEvent α)
  outcome : Outcome
deriving DecidableEq, Repr

/-- Modelled from the spec (§4.4): binding resolution. For each binding, a matching
table entry is required unless the direction is `Out`, in which case the resolver
allocates a zero-initialized buffer; a non-`Out` binding without an entry is a
`BindingError` naming that binding. -/
def resolve {α : Type} (zeroBuf : α) (table : List (String × α)) :
    List Binding → Except SchedError (List (String × α))
  | [] => .ok []
  | b :: rest =>
    match table.lookup b.name with
    | some v => (resolve zeroBuf table rest).map (fun r => (b.name, v) :: r)
    | none =>
      if b.direction = .Out then
        (resolve zeroBuf table rest).map (fun r => (b.name, zeroBuf) :: r)
      else .error (.bindingError b.name)

/-- Modelled from the spec (§4.5, §5): the sequential dispatch loop. Per iteration:
cancellation is checked cooperatively at the iteration boundary; one dispatch is issued
reading the active buffer; a backend error aborts immediately with `Failed`, discarding
partial results; otherwise the written value goes to the inactive buffer and the
buffers swap; a supplied per-iteration predicate may end the loop early. On loop exit
the Scheduler reads back the currently-active buffer and invokes the completion handoff
exactly once with it. `remaining` is `maxIterations - currentIteration`. -/
def schedLoop {α : Type} (backend : Nat → α → Except String α) (pred : Option (α → Bool))
    (cancelRequested : Nat → Bool) :
    Nat → Nat → DoubleBuffer α → List (SchedEvent α) → RunResult α
  | 0, _, st, evs =>
    { events := evs ++ [.callbackCall st.activeVal], outcome := .completed }
  | r + 1, iter, st, evs =>
    if cancelRequested iter then { events := evs, outcome := .cancelled }
    else
      match backend iter st.activeVal with
      | .error msg =>
        { events := evs ++ [.dispatchCall iter], outcome := .failed (.backendError msg) }
      | .ok written =>
        let st1 := (st.writeInactive written).swap
        let evs1 := evs ++ [.dispatchCall iter]
        match pred with
        | some p =>
          if p st1.activeVal then
            { events := evs1 ++ [.callbackCall st1.activeVal], outcome := .completed }
          else schedLoop backend pred cancelRequested r (iter + 1) st1 evs1
        | none => schedLoop backend pred cancelRequested r (iter + 1) st1 evs1

/-- Configuration of one pipeline run. -/
structure PipelineSetup (α : Type) where
  bindings : List Binding
  table : List (String × α)
  maxIterations : Nat
  pred : Option (α → Bool)
  cancelRequested : Nat → Bool

/-- Modelled from the spec (§4.4): buffer allocation for the `InOut` binding — two
same-sized buffers with the supplied initial value seeding the front buffer, which
starts active. -/
def initialBuffer {α : Type} (zeroBuf : α) (resolved : List (String × α))
    (bindings : List Binding) : DoubleBuffer α :=
  match bindings.find? (fun b => b.direction = .InOut) with
  | some b =>
    { front := (resolved.lookup b.name).getD zeroBuf, back := zeroBuf, active := .front }
  | none => { front := zeroBuf, back := zeroBuf, active := .front }

/-- Modelled from the spec: a full `run` — binding resolution happens strictly before
the dispatch loop, so a `BindingError` produces an empty event trace (no backend
calls); otherwise the loop of §4.5 runs from iteration 0. -/
def runPipeline {α : Type} (zeroBuf : α) (backend : Nat → α → Except String α)
    (setup : PipelineSetup α) : RunResult α :=
  match resolve zeroBuf setup.table setup.bindings with
  | .error e => { events := [], outcome := .failed e }
  | .ok resolved =>
    schedLoop backend setup.pred setup.cancelRequested setup.maxIterations 0
      (initialBuffer zeroBuf resolved setup.bindings) []

/-- Recognizer for dispatch events. -/
def isDispatchCall {α : Type} : SchedEvent α → Bool
  | .dispatchCall _ => true
  | _ => false

/-- Recognizer for completion-handoff events. -/
def isCallbackCall {α : Type} : SchedEvent α → Bool
  | .callbackCall _ => true
  | _ => false

/-- Number of dispatches issued to the backend during a run. -/
def dispatchCount {α : Type} (r : RunResult α) : Nat :=
  (r.events.filter isDispatchCall).length

/-- Number of completion-handoff invocations during a run. -/
def callbackCount {α : Type} (r : RunResult α) : Nat :=
  (r.events.filter isCallbackCall).length

/-- C1: ping-pong correctness. For every iteration `k`, (a) the dispatch of iteration `k`
reads and writes two distinct physical buffers (no self-aliasing within one dispatch),
(b) the buffer read by iteration `k+1` is the very buffer written by iteration `k`, and
(c) the value readable at iteration `k+1` equals exactly the kernel output of iteration
`k`'s dispatch (so never a value written two or more iterations earlier). -/
theorem pingPong_correct {α : Type} (kernel : α → α) (s0 : DoubleBuffer α) (k : Nat) :
    ((dispatchIter kernel)^[k] s0).readSlot ≠ ((dispatchIter kernel)^[k] s0).writeSlot
      ∧ ((dispatchIter kernel)^[k + 1] s0).readSlot = ((dispatchIter kernel)^[k] s0).writeSlot
      ∧ ((dispatchIter kernel)^[k + 1] s0).activeVal
          = kernel (((dispatchIter kernel)^[k] s0).activeVal) := by
  refine ⟨?_, ?_, ?_⟩
  · cases h : ((dispatchIter kernel)^[k] s0).active <;>
      simp [DoubleBuffer.readSlot, DoubleBuffer.writeSlot, BufSet.other, h]
  · rw [Function.iterate_succ_apply']
    cases h : ((dispatchIter kernel)^[k] s0).active <;>
      simp [dispatchIter, DoubleBuffer.readSlot, DoubleBuffer.writeSlot,
        DoubleBuffer.writeInactive, DoubleBuffer.swap, BufSet.other, h]
  · rw [Function.iterate_succ_apply']
    cases h : ((dispatchIter kernel)^[k] s0).active <;>
      simp [dispatchIter, DoubleBuffer.activeVal, DoubleBuffer.writeInactive,
        DoubleBuffer.swap, BufSet.other, h]

theorem schedLoop_ok_none {α : Type} (step : Nat → α → α) :
    ∀ (r iter : Nat) (st : DoubleBuffer α) (evs : List (SchedEvent α)),
      (schedLoop (fun i v => Except.ok (step i v)) none (fun _ => false) r iter st
            evs).outcome = Outcome.completed
        ∧ ((schedLoop (fun i v => Except.ok (step i v)) none (fun _ => false) r iter st
              evs).events.filter isDispatchCall).length
            = (evs.filter isDispatchCall).length + r := by
  intro r
  induction r with
  | zero =>
    intro iter st evs
    refine ⟨rfl, ?_⟩
    simp [schedLoop, isDispatchCall]
  | succ r ih =>
    intro iter st evs
    have hstep :
        schedLoop (fun i v => Except.ok (step i v)) none (fun _ => false) (r + 1) iter st evs
          = schedLoop (fun i v => Except.ok (step i v)) none (fun _ => false) r (iter + 1)
              ((st.writeInactive (step iter st.activeVal)).swap)
              (evs ++ [SchedEvent.dispatchCall iter]) := by
      simp [schedLoop]
    rw [hstep]
    obtain ⟨h1, h2⟩ := ih (iter + 1) ((st.writeInactive (step iter st.activeVal)).swap)
      (evs ++ [SchedEvent.dispatchCall iter])
    refine ⟨h1, ?_⟩
    rw [h2]
    simp [isDispatchCall]
    omega

/-- C3: with `maxIterations = M ≥ 1` and no per-iteration completion predicate, the
dispatch loop (with a backend whose dispatches all succeed and no cancellation) issues
exactly `M` dispatches and then reaches `Completed` — the loop has no exit besides the
predicate and the iteration bound. -/
theorem scheduler_termination {α : Type} (step : Nat → α → α) (M : Nat)
    (st : DoubleBuffer α) (_hM : 1 ≤ M) :
    dispatchCount
        (schedLoop (fun i v => Except.ok (step i v)) none (fun _ => false) M 0 st []) = M
      ∧ (schedLoop (fun i v => Except.ok (step i v)) none (fun _ => false) M 0 st
          []).outcome = Outcome.completed := by
  obtain ⟨h1, h2⟩ := schedLoop_ok_none step M 0 st []
  exact ⟨by unfold dispatchCount; rw [h2]; simp, h1⟩

/-- C3 witness: three iterations of an identity kernel on a `Nat` buffer. -/
theorem scheduler_termination_witness :
    dispatchCount
        (schedLoop (fun i v => Except.ok ((fun (_ : Nat) (v : Nat) => v) i v)) none
          (fun _ => false) 3 0 ⟨0, 0, BufSet.front⟩ []) = 3
      ∧ (schedLoop (fun i v => Except.ok ((fun (_ : Nat) (v : Nat) => v) i v)) none
          (fun _ => false) 3 0 ⟨0, 0, BufSet.front⟩ []).outcome = Outcome.completed :=
  scheduler_termination (fun _ v => v) 3 ⟨0, 0, BufSet.front⟩ (by decide)

theorem schedLoop_callback {α : Type} (backend : Nat → α → Except String α)
    (pred : Option (α → Bool)) (cancelRequested : Nat → Bool) :
    ∀ (r iter : Nat) (st : DoubleBuffer α) (evs : List (SchedEvent α)),
      ((schedLoop backend pred cancelRequested r iter st evs).events.filter
          isCallbackCall).length
        = (evs.filter isCallbackCall).length
          + (if (schedLoop backend pred cancelRequested r iter st evs).outcome
                = Outcome.completed then 1 else 0) := by
  intro r
  induction r with
  | zero =>
    intro iter st evs
    simp [schedLoop, isCallbackCall]
  | succ r ih =>
    intro iter st evs
    by_cases hc : cancelRequested iter
    · simp [schedLoop, hc]
    · cases hb : backend iter st.activeVal with
      | error msg =>
        simp [schedLoop, hc, hb, isCallbackCall]
      | ok written =>
        cases hp : pred with
        | none =>
          subst hp
          have hstep :
              schedLoop backend none cancelRequested (r + 1) iter st evs
                = schedLoop backend none cancelRequested r (iter + 1)
                    ((st.writeInactive written).swap)
                    (evs ++ [SchedEvent.dispatchCall iter]) := by
            simp [schedLoop, hc, hb]
          rw [hstep, ih]
          simp [isCallbackCall]
        | some p =>
          subst hp
          by_cases hpred : p ((st.writeInactive written).swap).activeVal
          · have hstep :
                schedLoop backend (some p) cancelRequested (r + 1) iter st evs
                  = { events := (evs ++ [SchedEvent.dispatchCall iter])
                        ++ [SchedEvent.callbackCall
                              ((st.writeInactive written).swap).activeVal],
                      outcome := Outcome.completed } := by
              simp [schedLoop, hc, hb, hpred]
            rw [hstep]
            simp [isCallbackCall]
          · have hstep :
                schedLoop backend (some p) cancelRequested (r + 1) iter st evs
                  = schedLoop backend (some p) cancelRequested r (iter + 1)
                      ((st.writeInactive written).swap)
                      (evs ++ [SchedEvent.dispatchCall iter]) := by
              simp [schedLoop, hc, hb, hpred]
            rw [hstep, ih]
            simp [isCallbackCall]

/-- C7: the completion handoff is invoked exactly once when a run ends `Completed` and
never otherwise — in particular never on `Failed` (partial results of completed
iterations are discarded, not delivered) and never on `Cancelled`. -/
theorem onCompleted_exactly_once {α : Type} (zeroBuf : α)
    (backend : Nat → α → Except String α) (setup : PipelineSetup α) :
    callbackCount (runPipeline zeroBuf backend setup)
      = if (runPipeline zeroBuf backend setup).outcome = Outcome.completed then 1
        else 0 := by
  unfold runPipeline callbackCount
  cases hr : resolve zeroBuf setup.table setup.bindings with
  | error e => simp
  | ok resolved =>
    have h := schedLoop_callback backend setup.pred setup.cancelRequested
      setup.maxIterations 0 (initialBuffer zeroBuf resolved setup.bindings) []
    simpa using h

theorem resolve_error_of_missing {α : Type} (zeroBuf : α) (table : List (String × α)) :
    ∀ (bindings : List Binding) (b : Binding), b ∈ bindings → b.direction ≠ Direction.Out →
      table.lookup b.name = none →
      ∃ name, resolve zeroBuf table bindings = Except.error (SchedError.bindingError name)
        ∧ ∃ b', b' ∈ bindings ∧ b'.name = name ∧ b'.direction ≠ Direction.Out
            ∧ table.lookup name = none := by
  intro bindings
  induction bindings with
  | nil => intro b hb; simp at hb
  | cons b0 rest ih =>
    intro b hb hdir hnone
    cases hl : table.lookup b0.name with
    | some v =>
      have hbr : b ∈ rest := by
        rcases List.mem_cons.mp hb with rfl | hmem
        · rw [hl] at hnone; exact absurd hnone (by simp)
        · exact hmem
      obtain ⟨name, he, b', hb', hn, hd, ht⟩ := ih b hbr hdir hnone
      exact ⟨name, by simp [resolve, hl, he, Except.map], b', List.mem_cons_of_mem _ hb', hn, hd, ht⟩
    | none =>
      by_cases hd0 : b0.direction = Direction.Out
      · have hbr : b ∈ rest := by
          rcases List.mem_cons.mp hb with rfl | hmem
          · exact absurd hd0 hdir
          · exact hmem
        obtain ⟨name, he, b', hb', hn, hd, ht⟩ := ih b hbr hdir hnone
        exact ⟨name, by simp [resolve, hl, hd0, he, Except.map], b',
          List.mem_cons_of_mem _ hb', hn, hd, ht⟩
      · exact ⟨b0.name, by simp [resolve, hl, hd0], b0, List.mem_cons_self _ _, rfl,
          hd0, hl⟩

theorem resolve_ok_of_present {α : Type} (zeroBuf : α) (table : List (String × α)) :
    ∀ bindings : List Binding,
      (∀ b ∈ bindings, b.direction ≠ Direction.Out → (table.lookup b.name).isSome) →
      resolve zeroBuf table bindings
        = Except.ok
            (bindings.map (fun b => (b.name, (table.lookup b.name).getD zeroBuf))) := by
  intro bindings
  induction bindings with
  | nil => intro _; rfl
  | cons b0 rest ih =>
    intro h
    have hrest := ih (fun b hb => h b (List.mem_cons_of_mem _ hb))
    cases hl : table.lookup b0.name with
    | some v => simp [resolve, hl, hrest, Except.map]
    | none =>
      have hd0 : b0.direction = Direction.Out := by
        by_contra hd0
        have := h b0 (List.mem_cons_self _ _) hd0
        rw [hl] at this
        exact absurd this (by simp)
      simp [resolve, hl, hd0, hrest, Except.map]

/-- C6: a run whose kernel has an `In`-directed binding with no matching table entry
fails with a `BindingError` naming a missing non-`Out` binding and produces an empty
event trace — zero dispatch calls reach the backend, so no GPU side effects; and an
`Out`-directed binding never requires a pre-supplied value: whenever every non-`Out`
binding is present, resolution succeeds and each absent `Out` binding is bound to the
zero-initialized buffer. -/
theorem missing_in_binding_fails_before_dispatch {α : Type} (zeroBuf : α)
    (backend : Nat → α → Except String α) (setup : PipelineSetup α) (b : Binding)
    (hb : b ∈ setup.bindings) (hdir : b.direction = Direction.In)
    (hnone : setup.table.lookup b.name = none) :
    (∃ name, runPipeline zeroBuf backend setup
          = { events := [], outcome := Outcome.failed (SchedError.bindingError name) }
        ∧ ∃ b', b' ∈ setup.bindings ∧ b'.name = name ∧ b'.direction ≠ Direction.Out
            ∧ setup.table.lookup name = none)
      ∧ dispatchCount (runPipeline zeroBuf backend setup) = 0
      ∧ ∀ (table' : List (String × α)) (bindings' : List Binding),
          (∀ c ∈ bindings', c.direction ≠ Direction.Out → (table'.lookup c.name).isSome) →
          resolve zeroBuf table' bindings'
            = Except.ok
                (bindings'.map (fun c => (c.name, (table'.lookup c.name).getD zeroBuf))) := by
  obtain ⟨name, he, hex⟩ := resolve_error_of_missing zeroBuf setup.table setup.bindings b
    hb (by rw [hdir]; intro hcontra; exact absurd hcontra (by simp)) hnone
  have hrun : runPipeline zeroBuf backend setup
      = { events := [], outcome := Outcome.failed (SchedError.bindingError name) } := by
    unfold runPipeline
    rw [he]
  refine ⟨⟨name, hrun, hex⟩, ?_, fun t' bs' hpres => resolve_ok_of_present zeroBuf t' bs' hpres⟩
  rw [hrun]
  rfl

/-- C6 witness: a single `In` binding `u_Data` with an empty table fails with a
`BindingError` and zero dispatches. -/
theorem missing_in_binding_fails_before_dispatch_witness :
    dispatchCount
        (runPipeline (0 : Nat) (fun _ v => Except.ok v)
          { bindings := [{ name := "u_Data", direction := Direction.In }],
            table := [], maxIterations := 1, pred := none,
            cancelRequested := fun _ => false }) = 0 :=
  (missing_in_binding_fails_before_dispatch (0 : Nat) (fun _ v => Except.ok v)
    { bindings := [{ name := "u_Data", direction := Direction.In }],
      table := [], maxIterations := 1, pred := none, cancelRequested := fun _ => false }
    { name := "u_Data", direction := Direction.In }
    (by simp) rfl rfl).2.1

end GWebGPU

namespace GWebGPU

/-! ## The `u_Data[i] = u_Data[i] + [1,0,0,0]` scenario (modelled from the spec) -/

/-- A vec4 value with exact rational components. -/
structure Vec4 where
  x : Rat
  y : Rat
  z : Rat
  w : Rat
deriving DecidableEq, Repr

/-- Componentwise vec4 addition. -/
def Vec4.add (a b : Vec4) : Vec4 :=
  ⟨a.x + b.x, a.y + b.y, a.z + b.z, a.w + b.w⟩

/-- Modelled from the spec's scenario: the entry body
`u_Data[i] = u_Data[i] + [1, 0, 0, 0]` for invocation `i`, reading the full snapshot of
the previous iteration's buffer. -/
def incFirstBody (i : Nat) (data : List Vec4) : Vec4 :=
  (data.getD i ⟨0, 0, 0, 0⟩).add ⟨1, 0, 0, 0⟩

/-- Modelled from the spec: one dispatch over counts `(n, 1, 1)` with workgroup size
`(1, 1, 1)` — `n` invocations, invocation `i` producing element `i` of the written
buffer from the read snapshot. -/
def dispatchKernel (body : Nat → List Vec4 → Vec4) (n : Nat) (readBuf : List Vec4) :
    List Vec4 :=
  (List.range n).map (fun i => body i readBuf)

/-- The C2 scenario configuration: one `InOut` vec4-array binding `u_Data` seeded from
the table, dispatch counts `(4, 1, 1)`, `maxIterations = 1`, no predicate, no
cancellation. -/
def scenarioSetup (seed : List Vec4) : PipelineSetup (List Vec4) :=
  { bindings := [{ name := "u_Data", direction := Direction.InOut }]
    table := [("u_Data", seed)]
    maxIterations := 1
    pred := none
    cancelRequested := fun _ => false }

/-- The backend for the C2 scenario: every dispatch succeeds and runs the kernel over
4 invocations. -/
def scenarioBackend : Nat → List Vec4 → Except String (List Vec4) :=
  fun _ readBuf => Except.ok (dispatchKernel incFirstBody 4 readBuf)

/-- C2: running the scenario pipeline issues one dispatch and delivers to the
completion handoff a buffer in which every element's first component equals its seed
value plus exactly 1 and components 1–3 equal their seed values. -/
theorem scenario_increment_first_component (a b c d : Vec4) :
    runPipeline [] scenarioBackend (scenarioSetup [a, b, c, d])
      = { events :=
            [SchedEvent.dispatchCall 0,
              SchedEvent.callbackCall
                [⟨a.x + 1, a.y, a.z, a.w⟩, ⟨b.x + 1, b.y, b.z, b.w⟩,
                  ⟨c.x + 1, c.y, c.z, c.w⟩, ⟨d.x + 1, d.y, d.z, d.w⟩]],
          outcome := Outcome.completed } := by
  show runPipeline [] scenarioBackend (scenarioSetup [a, b, c, d]) = _
  simp only [runPipeline, scenarioSetup, scenarioBackend, resolve, List.lookup,
    beq_self_eq_true, if_pos, initialBuffer, List.find?, schedLoop, Except.map,
    dispatchKernel, incFirstBody, Vec4.add, DoubleBuffer.activeVal,
    DoubleBuffer.writeInactive, DoubleBuffer.swap, BufSet.other]
  norm_num [List.range_succ, Vec4.mk.injEq]

end GWebGPU

namespace GWebGPU

/-! ## Code generator (modelled from the spec)

The transpiler implementation is likewise not among the provided source files (src/ only
holds the kernel source text it consumes), so `generate` is modelled from the
specification, §4.3 and §8. -/

/-- Tokens of kernel/generated source: runtime identifiers, numeric literals, and
dialect keywords/punctuation. -/
inductive Token
  | ident (s : String)
  | lit (v : Int)
  | sym (s : String)
deriving DecidableEq, Repr

/-- The supported target dialects. -/
inductive TargetDialect
  | GLSL100
  | GLSL450
  | WGSL
deriving DecidableEq, Repr

/-- Modelled from the spec: each dialect exposes the current invocation index under a
different builtin name, substituted for the canonical `globalInvocationID` reference. -/
def invocationIdName : TargetDialect → String
  | .GLSL100 => "gl_FragCoord"
  | .GLSL450 => "gl_GlobalInvocationID"
  | .WGSL => "global_invocation_id"

/-- Modelled from the spec: the part of the compiled-unit metadata the generator
consumes for constant inlining — the compile-time constants with their bound values. -/
structure ShaderContext where
  constants : List (String × Int)
deriving DecidableEq, Repr

/-- Modelled from the spec: compile-time constants are inlined as literals, substituted
textually before structural generation. -/
def inlineConstants (consts : List (String × Int)) (toks : List Token) : List Token :=
  toks.map (fun t =>
    match t with
    | .ident s =>
      match consts.lookup s with
      | some v => .lit v
      | none => .ident s
    | t => t)

/-- Modelled from the spec: substitute the dialect-specific invocation-id builtin name
for every occurrence of the canonical invocation-id reference. -/
def substInvocationId (d : TargetDialect) (toks : List Token) : List Token :=
  toks.map (fun t =>
    match t with
    | .ident s => if s = "globalInvocationID" then .ident (invocationIdName d) else .ident s
    | t => t)

/-- Modelled from the spec: dialect-specific entry-point boilerplate emitted before the
kernel body (keywords and punctuation only — no runtime identifiers). -/
def dialectPrologue : TargetDialect → List Token
  | .GLSL100 => [.sym "precision highp float;", .sym "void main() \x7b"]
  | .GLSL450 => [.sym "#version 450", .sym "void main() \x7b"]
  | .WGSL => [.sym "@compute", .sym "fn main() \x7b"]

/-- Modelled from the spec: dialect-specific boilerplate emitted after the kernel body. -/
def dialectEpilogue (_ : TargetDialect) : List Token := [.sym "\x7d"]

/-- Modelled from the spec: `generate(ctx, ast, dialect)` — a pure function of its three
arguments: inline the compile-time constants as literals, then perform structural
generation (builtin-name mapping wrapped in dialect boilerplate). -/
def generate (ctx : ShaderContext) (ast : List Token) (d : TargetDialect) : List Token :=
  dialectPrologue d
    ++ substInvocationId d (inlineConstants ctx.constants ast)
    ++ dialectEpilogue d

/-- C4: `generate` is deterministic — for a fixed triple of context, AST and dialect,
repeated calls produce identical output token streams; the model is a pure function
with no other input or state it could read. -/
theorem generate_deterministic (ctx : ShaderContext) (ast : List Token)
    (d : TargetDialect) :
    generate ctx ast d = generate ctx ast d := rfl

/-- C5: when the compile-time constant `N` is bound to `v`, the generated source carries
the literal `v` at every position where the kernel source references `N`, and no token
of the generated source references `N` as a runtime identifier (for any `N` distinct
from the dialect's invocation-id builtin name). -/
theorem constants_inlined (ctx : ShaderContext) (ast : List Token) (d : TargetDialect)
    (N : String) (v : Int) (hbound : ctx.constants.lookup N = some v)
    (hbuiltin : invocationIdName d ≠ N) :
    (∃ body, generate ctx ast d = dialectPrologue d ++ body ++ dialectEpilogue d
        ∧ body.length = ast.length
        ∧ ∀ i, ast.getD i (Token.sym "") = Token.ident N →
            body.getD i (Token.sym "") = Token.lit v)
      ∧ Token.ident N ∉ generate ctx ast d := by
  constructor
  · refine ⟨substInvocationId d (inlineConstants ctx.constants ast), ?_, ?_, ?_⟩
    · unfold generate
      rw [List.append_assoc]
    · simp [substInvocationId, inlineConstants]
    · intro i hi
      have hilt : i < ast.length := by
        by_contra hge
        rw [List.getD_eq_default _ _ (by omega)] at hi
        exact absurd hi (by simp)
      have hbl : i < (substInvocationId d (inlineConstants ctx.constants ast)).length := by
        simpa [substInvocationId, inlineConstants] using hilt
      rw [List.getD_eq_getElem _ _ hilt] at hi
      rw [List.getD_eq_getElem _ _ hbl]
      simp only [substInvocationId, inlineConstants, List.getElem_map]
      rw [hi]
      simp [hbound]
  · unfold generate
    intro hmem
    rcases List.mem_append.mp hmem with hmem | hmem
    · rcases List.mem_append.mp hmem with hmem | hmem
      · cases d <;> simp [dialectPrologue] at hmem
      · simp only [substInvocationId] at hmem
        rw [List.mem_map] at hmem
        obtain ⟨t, ht, hteq⟩ := hmem
        cases t with
        | ident s =>
          have hteq2 : (if s = "globalInvocationID" then Token.ident (invocationIdName d)
              else Token.ident s) = Token.ident N := hteq
          by_cases hs : s = "globalInvocationID"
          · rw [if_pos hs] at hteq2
            injection hteq2 with hteq2
            exact hbuiltin hteq2
          · rw [if_neg hs] at hteq2
            injection hteq2 with hteq2
            rw [hteq2] at ht
            simp only [inlineConstants] at ht
            rw [List.mem_map] at ht
            obtain ⟨u, _, hueq⟩ := ht
            cases u with
            | ident s' =>
              have hueq2 : (match ctx.constants.lookup s' with
                  | some w => Token.lit w
                  | none => Token.ident s') = Token.ident N := hueq
              cases hl : ctx.constants.lookup s' with
              | some w => rw [hl] at hueq2; exact absurd hueq2 (by simp)
              | none =>
                rw [hl] at hueq2
                injection hueq2 with hueq2
                rw [hueq2] at hl
                rw [hl] at hbound
                exact absurd hbound (by simp)
            | lit w => exact absurd hueq (by simp)
            | sym s' => exact absurd hueq (by simp)
        | lit w => exact absurd hteq (by simp)
        | sym s' => exact absurd hteq (by simp)
    · simp [dialectEpilogue] at hmem

/-- C5 witness: constant `N` bound to 5 in a kernel `N + x`, generated for WGSL. -/
theorem constants_inlined_witness :
    Token.ident "N"
      ∉ generate ⟨[("N", 5)]⟩ [Token.ident "N", Token.sym "+", Token.ident "x"]
          TargetDialect.WGSL :=
  (constants_inlined ⟨[("N", 5)]⟩ [Token.ident "N", Token.sym "+", Token.ident "x"]
    TargetDialect.WGSL "N" 5 (by decide) (by decide)).2

end GWebGPU
